import Mathlib

/-!
Shallow embedding of the NMTVectorizer class from
the repository file vectorizers.py (Machine translation Transformer),
with theorems about its behaviour.

Modelling conventions:
* A torchtext vocabulary is a list of token strings (itos, index-to-string)
  together with the default index installed by set_default_index.  Building a
  vocabulary from an ordered dictionary deduplicates the token sequence keeping
  first occurrences, in order.
* Integer tensors of rank 1 are List Nat (all stored values are vocabulary
  indices), boolean tensors of rank 2 are List (List Bool).
* The split method of Python strings splits on runs of whitespace and drops
  empty pieces.
* The _vectorize method can fail: the slice assignment of the index tensor into
  the freshly allocated vector raises a size-mismatch error when the right-hand
  side cannot be broadcast to the destination slice.  Torch broadcasting lets a
  size-1 source expand to any destination size (including 0); any other
  mismatch raises.  Fallible results are Option.
-/

set_option autoImplicit false

/-- Helper for the split method of Python strings: split a character list on
whitespace, dropping empty pieces.  The accumulator holds the current word,
reversed. -/
def splitWSAux : List Char → List Char → List String
  | [], acc => if acc.isEmpty then [] else [String.mk acc.reverse]
  | c :: cs, acc =>
    if c.isWhitespace then
      if acc.isEmpty then splitWSAux cs [] else String.mk acc.reverse :: splitWSAux cs []
    else
      splitWSAux cs (c :: acc)

/-- Whitespace tokenization of a Python string, empty pieces dropped. -/
def splitWS (text : String) : List String :=
  splitWSAux text.data []

/-- Index of the first occurrence of a token in a token list, if present
(torchtext vocabulary string-to-index lookup without a default). -/
def idxOf? (tok : String) : List String → Option Nat
  | [] => none
  | t :: ts => if t = tok then some 0 else (idxOf? tok ts).map (· + 1)

/-- Keys of an ordered dictionary built from a token sequence: deduplicate
keeping the first occurrence of each token, preserving order.  The second
argument accumulates the tokens already emitted. -/
def dedupKeysAux : List String → List String → List String
  | [], _ => []
  | t :: ts, seen => if t ∈ seen then dedupKeysAux ts seen else t :: dedupKeysAux ts (t :: seen)

/-- Keys of the ordered dictionary built by the constructor from a token
sequence, in first-appearance order. -/
def dedupKeys (tokens : List String) : List String :=
  dedupKeysAux tokens []

/-- Model of a torchtext vocabulary after set_default_index: the ordered token
list and the default index returned for lookups of absent tokens. -/
structure Vocab where
  itos : List String
  default_index : Nat
deriving Repr, DecidableEq

/-- Subscript lookup on a vocabulary: index of the token, or the default index
when the token is absent.  (The class always calls set_default_index in its
constructor before any lookup of a possibly-absent token, so the default is
always installed here.) -/
def Vocab.getitem (v : Vocab) (tok : String) : Nat :=
  (idxOf? tok v.itos).getD v.default_index

/-- State of an NMTVectorizer: two vocabularies and the maximum word count. -/
structure NMTVectorizer where
  source_vocab : Vocab
  target_vocab : Vocab
  max_words : Int
deriving Repr, DecidableEq

namespace NMTVectorizer

def UNK : String := "<unk>"
def PAD : String := "<pad>"
def SOS : String := "<sos>"
def EOS : String := "<eos>"

def source_specials : List String := [UNK, PAD]

def target_specials : List String := [UNK, PAD, SOS, EOS]

/-- One step of the special-token loop of the constructor: insert the special
token at position 0 unless it is already present. -/
def insertSpecial (itos : List String) (special : String) : List String :=
  if special ∈ itos then itos else special :: itos

/-- The special-token loop of the constructor. -/
def insertSpecials (itos : List String) (specials : List String) : List String :=
  specials.foldl insertSpecial itos

/-- Constructor of NMTVectorizer.  The source defect is kept faithfully: the
target vocabulary's default index is set from the source vocabulary's lookup of
the unknown token. -/
def init (source_tokens target_tokens : List String) (max_words : Int) : NMTVectorizer :=
  let source_itos := insertSpecials (dedupKeys source_tokens) source_specials
  let source_default := (idxOf? UNK source_itos).getD 0
  let target_itos := insertSpecials (dedupKeys target_tokens) target_specials
  let target_default := (idxOf? UNK source_itos).getD 0
  ⟨⟨source_itos, source_default⟩, ⟨target_itos, target_default⟩, max_words⟩

/-- Method _vectorize of NMTVectorizer.  A negative length (the Python default
is -1) means the length of the index list.  The slice assignment of the index
tensor into the allocated vector succeeds when the sizes match (plain copy), or
when the source has size 1 and is broadcast over the destination slice;
otherwise torch raises a size mismatch. -/
def _vectorize (v : NMTVectorizer) (indices : List Nat) (vector_length : Int) :
    Option (List Nat) :=
  let n : Nat := (if vector_length < 0 then (indices.length : Int) else vector_length).toNat
  let pad_value := v.source_vocab.getitem PAD
  if indices.length ≤ n then
    some (indices ++ List.replicate (n - indices.length) pad_value)
  else if indices.length = 1 then
    some (List.replicate n (indices.getD 0 pad_value))
  else
    none

/-- Method _get_source_indices of NMTVectorizer. -/
def _get_source_indices (v : NMTVectorizer) (text : String) : List Nat :=
  (splitWS text).map v.source_vocab.getitem

/-- Method _get_target_indices of NMTVectorizer. -/
def _get_target_indices (v : NMTVectorizer) (text : String) : List Nat × List Nat :=
  let indices := (splitWS text).map v.target_vocab.getitem
  (v.target_vocab.getitem SOS :: indices, indices ++ [v.target_vocab.getitem EOS])

/-- Method nopeak_mask of NMTVectorizer: the upper-triangular matrix of ones
strictly above the diagonal, compared elementwise with 0. -/
def nopeak_mask (size : Nat) : List (List Bool) :=
  (List.range size).map fun i =>
    (List.range size).map fun j => (if i + 1 ≤ j then (1 : Nat) else 0) == 0

/-- Method create_masks of NMTVectorizer.  The source mask is the padding
comparison wrapped into a single row (unsqueeze).  When a target vector is
given, its padding row is combined elementwise (broadcast along rows) with the
causal mask, and both masks are returned. -/
def create_masks (v : NMTVectorizer) (source_vector : List Nat)
    (target_x_vector : Option (List Nat)) :
    List (List Bool) × Option (List (List Bool)) :=
  let source_pad := v.source_vocab.getitem PAD
  let source_mask := [source_vector.map fun e => e != source_pad]
  (source_mask, target_x_vector.map fun tx =>
    let target_pad := v.target_vocab.getitem PAD
    let pad_row := tx.map fun e => e != target_pad
    (nopeak_mask tx.length).map fun np_row =>
      List.zipWith (fun a b => a && b) pad_row np_row)

/-- Record returned by the vectorize method. -/
structure VectorizedPair where
  source_vector : List Nat
  source_mask : List (List Bool)
  target_x_vector : List Nat
  target_y_vector : List Nat
  target_mask : List (List Bool)
deriving Repr, DecidableEq

/-- Method vectorize of NMTVectorizer. -/
def vectorize (v : NMTVectorizer) (source_text target_text : String) :
    Option VectorizedPair := do
  let source_vector ← v._vectorize (v._get_source_indices source_text) v.max_words
  let ti := v._get_target_indices target_text
  let target_x_vector ← v._vectorize ti.1 (v.max_words + 1)
  let target_y_vector ← v._vectorize ti.2 (v.max_words + 1)
  let masks := v.create_masks source_vector (some target_x_vector)
  let target_mask ← masks.2
  some ⟨source_vector, masks.1, target_x_vector, target_y_vector, target_mask⟩

/-- Method vectorize_source of NMTVectorizer. -/
def vectorize_source (v : NMTVectorizer) (source_text : String) : Option (List Nat) :=
  v._vectorize (v._get_source_indices source_text) v.max_words

/-- Classmethod from_pairs of NMTVectorizer: count words per side (a Counter
keeps keys in first-appearance order) and construct from the key lists. -/
def from_pairs (pairs : List (String × String)) (max_words : Int) : NMTVectorizer :=
  let source_words := pairs.foldr (fun p acc => splitWS p.1 ++ acc) []
  let target_words := pairs.foldr (fun p acc => splitWS p.2 ++ acc) []
  init (dedupKeys source_words) (dedupKeys target_words) max_words

/-- Dictionary produced by the to_serializable method. -/
structure Serialized where
  source_tokens : List String
  target_tokens : List String
  max_words : Int
deriving Repr, DecidableEq

/-- Method to_serializable of NMTVectorizer. -/
def to_serializable (v : NMTVectorizer) : Serialized :=
  ⟨v.source_vocab.itos, v.target_vocab.itos, v.max_words⟩

/-- Classmethod from_serializable of NMTVectorizer. -/
def from_serializable (contents : Serialized) : NMTVectorizer :=
  init contents.source_tokens contents.target_tokens contents.max_words

end NMTVectorizer

/-- Operation named by the padding round-trip property of the specification:
remove all trailing occurrences of the padding value from a vector. -/
def stripTrailingPadding (l : List Nat) (p : Nat) : List Nat :=
  (l.reverse.dropWhile (· == p)).reverse

/-! Generic list access lemmas used to reason about vectors and masks. -/

theorem getD_append_of_lt {α : Type} (l1 l2 : List α) (k : Nat) (d : α)
    (h : k < l1.length) : (l1 ++ l2).getD k d = l1.getD k d := by
  induction l1 generalizing k with
  | nil => simp at h
  | cons a l ih =>
    cases k with
    | zero => rfl
    | succ k =>
      simp only [List.cons_append, List.getD_cons_succ]
      exact ih k (by simpa using h)

theorem getD_append_of_le {α : Type} (l1 l2 : List α) (k : Nat) (d : α)
    (h : l1.length ≤ k) : (l1 ++ l2).getD k d = l2.getD (k - l1.length) d := by
  induction l1 generalizing k with
  | nil => simp
  | cons a l ih =>
    cases k with
    | zero => simp at h
    | succ k =>
      simp only [List.cons_append, List.getD_cons_succ, List.length_cons,
        Nat.succ_sub_succ]
      exact ih k (Nat.le_of_succ_le_succ h)

theorem getD_replicate_of_lt {α : Type} (n k : Nat) (a d : α) (h : k < n) :
    (List.replicate n a).getD k d = a := by
  induction n generalizing k with
  | zero => omega
  | succ n ih =>
    cases k with
    | zero => rfl
    | succ k =>
      simp only [List.replicate_succ, List.getD_cons_succ]
      exact ih k (by omega)

theorem getD_map_of_lt {α β : Type} (f : α → β) (l : List α) (k : Nat) (d : β)
    (d0 : α) (h : k < l.length) : (l.map f).getD k d = f (l.getD k d0) := by
  induction l generalizing k with
  | nil => simp at h
  | cons a l ih =>
    cases k with
    | zero => rfl
    | succ k =>
      simp only [List.map_cons, List.getD_cons_succ]
      exact ih k (by simpa using h)

theorem range_getD_of_lt (n k : Nat) (h : k < n) : (List.range n).getD k 0 = k := by
  induction n with
  | zero => omega
  | succ n ih =>
    rcases Nat.lt_or_ge k n with hk | hk
    · rw [List.range_succ, getD_append_of_lt _ _ _ _ (by simpa using hk)]
      exact ih hk
    · have hk' : k = n := by omega
      subst hk'
      rw [List.range_succ, getD_append_of_le _ _ _ _ (by simp)]
      simp

theorem getD_range_map_of_lt {β : Type} (f : Nat → β) (n k : Nat) (d : β)
    (h : k < n) : ((List.range n).map f).getD k d = f k := by
  rw [getD_map_of_lt f _ k d 0 (by simpa using h), range_getD_of_lt n k h]

theorem getD_zipWith_of_lt {α β γ : Type} (f : α → β → γ) (l1 : List α)
    (l2 : List β) (k : Nat) (d : γ) (d1 : α) (d2 : β) (h1 : k < l1.length)
    (h2 : k < l2.length) :
    (List.zipWith f l1 l2).getD k d = f (l1.getD k d1) (l2.getD k d2) := by
  induction l1 generalizing l2 k with
  | nil => simp at h1
  | cons a l ih =>
    cases l2 with
    | nil => simp at h2
    | cons b l2 =>
      cases k with
      | zero => rfl
      | succ k =>
        simp only [List.zipWith_cons_cons, List.getD_cons_succ]
        exact ih l2 k (by simpa using h1) (by simpa using h2)

/-! Lemmas about vocabulary construction. -/

theorem mem_of_mem_dedupKeysAux (l : List String) (seen : List String) (a : String)
    (h : a ∈ dedupKeysAux l seen) : a ∈ l := by
  induction l generalizing seen with
  | nil => simp [dedupKeysAux] at h
  | cons t ts ih =>
    rw [dedupKeysAux] at h
    by_cases hts : t ∈ seen
    · rw [if_pos hts] at h
      exact List.mem_cons_of_mem t (ih _ h)
    · rw [if_neg hts] at h
      rcases List.mem_cons.mp h with h | h
      · exact h ▸ List.mem_cons_self t ts
      · exact List.mem_cons_of_mem t (ih _ h)

theorem not_mem_seen_of_mem_dedupKeysAux (l : List String) (seen : List String)
    (a : String) (h : a ∈ dedupKeysAux l seen) : a ∉ seen := by
  induction l generalizing seen with
  | nil => simp [dedupKeysAux] at h
  | cons t ts ih =>
    rw [dedupKeysAux] at h
    by_cases hts : t ∈ seen
    · rw [if_pos hts] at h
      exact ih _ h
    · rw [if_neg hts] at h
      rcases List.mem_cons.mp h with h | h
      · exact h ▸ hts
      · intro hseen
        exact ih _ h (List.mem_cons_of_mem t hseen)

theorem dedupKeysAux_nodup (l : List String) (seen : List String) :
    (dedupKeysAux l seen).Nodup := by
  induction l generalizing seen with
  | nil => simp [dedupKeysAux]
  | cons t ts ih =>
    rw [dedupKeysAux]
    by_cases hts : t ∈ seen
    · rw [if_pos hts]; exact ih _
    · rw [if_neg hts]
      refine List.nodup_cons.mpr ⟨?_, ih _⟩
      intro hmem
      exact not_mem_seen_of_mem_dedupKeysAux _ _ _ hmem (List.mem_cons_self t seen)

theorem dedupKeys_nodup (l : List String) : (dedupKeys l).Nodup :=
  dedupKeysAux_nodup l []

theorem mem_of_mem_dedupKeys (l : List String) (a : String) (h : a ∈ dedupKeys l) :
    a ∈ l :=
  mem_of_mem_dedupKeysAux l [] a h

theorem dedupKeysAux_eq_self (l : List String) (seen : List String)
    (hn : l.Nodup) (hd : ∀ a ∈ l, a ∉ seen) : dedupKeysAux l seen = l := by
  induction l generalizing seen with
  | nil => rfl
  | cons t ts ih =>
    rw [dedupKeysAux, if_neg (hd t (List.mem_cons_self t ts))]
    rcases List.nodup_cons.mp hn with ⟨htts, hnts⟩
    congr 1
    refine ih _ hnts ?_
    intro a ha
    rw [List.mem_cons]
    rintro (rfl | hseen)
    · exact htts ha
    · exact hd a (List.mem_cons_of_mem t ha) hseen

theorem dedupKeys_eq_self (l : List String) (hn : l.Nodup) : dedupKeys l = l :=
  dedupKeysAux_eq_self l [] hn (by simp)

namespace NMTVectorizer

theorem insertSpecial_of_mem (itos : List String) (s : String) (h : s ∈ itos) :
    insertSpecial itos s = itos := by
  rw [insertSpecial, if_pos h]

theorem insertSpecial_of_not_mem (itos : List String) (s : String) (h : s ∉ itos) :
    insertSpecial itos s = s :: itos := by
  rw [insertSpecial, if_neg h]

theorem insertSpecial_nodup (itos : List String) (s : String) (h : itos.Nodup) :
    (insertSpecial itos s).Nodup := by
  rw [insertSpecial]
  by_cases hs : s ∈ itos
  · rwa [if_pos hs]
  · rw [if_neg hs]
    exact List.nodup_cons.mpr ⟨hs, h⟩

theorem mem_insertSpecial_self (itos : List String) (s : String) :
    s ∈ insertSpecial itos s := by
  rw [insertSpecial]
  by_cases hs : s ∈ itos
  · rwa [if_pos hs]
  · rw [if_neg hs]; exact List.mem_cons_self s itos

theorem mem_insertSpecial_of_mem (itos : List String) (s a : String) (h : a ∈ itos) :
    a ∈ insertSpecial itos s := by
  rw [insertSpecial]
  by_cases hs : s ∈ itos
  · rwa [if_pos hs]
  · rw [if_neg hs]; exact List.mem_cons_of_mem s h

theorem insertSpecials_nodup (itos : List String) (specials : List String)
    (h : itos.Nodup) : (insertSpecials itos specials).Nodup := by
  induction specials generalizing itos with
  | nil => exact h
  | cons s ss ih =>
    rw [insertSpecials, List.foldl_cons]
    exact ih _ (insertSpecial_nodup itos s h)

theorem mem_insertSpecials_of_mem (itos : List String) (specials : List String)
    (a : String) (h : a ∈ itos) : a ∈ insertSpecials itos specials := by
  induction specials generalizing itos with
  | nil => exact h
  | cons s ss ih =>
    rw [insertSpecials, List.foldl_cons]
    exact ih _ (mem_insertSpecial_of_mem itos s a h)

theorem mem_insertSpecials_self (itos : List String) (specials : List String)
    (s : String) (h : s ∈ specials) : s ∈ insertSpecials itos specials := by
  induction specials generalizing itos with
  | nil => simp at h
  | cons t ts ih =>
    rw [insertSpecials, List.foldl_cons]
    rcases List.mem_cons.mp h with rfl | hts
    · exact mem_insertSpecials_of_mem _ ts s (mem_insertSpecial_self itos s)
    · exact ih _ hts

theorem insertSpecials_of_forall_mem (itos : List String) (specials : List String)
    (h : ∀ s ∈ specials, s ∈ itos) : insertSpecials itos specials = itos := by
  induction specials with
  | nil => rfl
  | cons s ss ih =>
    rw [insertSpecials, List.foldl_cons,
      insertSpecial_of_mem itos s (h s (List.mem_cons_self s ss))]
    exact ih fun t ht => h t (List.mem_cons_of_mem s ht)

theorem init_source_itos (st tt : List String) (mw : Int)
    (hs : ∀ tok ∈ st, tok ∉ source_specials) :
    (init st tt mw).source_vocab.itos = PAD :: UNK :: dedupKeys st := by
  have hu : UNK ∉ dedupKeys st := fun h =>
    hs UNK (mem_of_mem_dedupKeys st UNK h) (by simp [source_specials])
  have hp : PAD ∉ dedupKeys st := fun h =>
    hs PAD (mem_of_mem_dedupKeys st PAD h) (by simp [source_specials])
  show insertSpecials (dedupKeys st) source_specials = PAD :: UNK :: dedupKeys st
  rw [source_specials, insertSpecials]
  simp only [List.foldl_cons, List.foldl_nil]
  rw [insertSpecial_of_not_mem _ _ hu, insertSpecial_of_not_mem]
  intro h
  rcases List.mem_cons.mp h with h | h
  · exact absurd h (by decide)
  · exact hp h

theorem init_target_itos (st tt : List String) (mw : Int)
    (ht : ∀ tok ∈ tt, tok ∉ target_specials) :
    (init st tt mw).target_vocab.itos = EOS :: SOS :: PAD :: UNK :: dedupKeys tt := by
  have hu : UNK ∉ dedupKeys tt := fun h =>
    ht UNK (mem_of_mem_dedupKeys tt UNK h) (by simp [target_specials])
  have hp : PAD ∉ dedupKeys tt := fun h =>
    ht PAD (mem_of_mem_dedupKeys tt PAD h) (by simp [target_specials])
  have hsos : SOS ∉ dedupKeys tt := fun h =>
    ht SOS (mem_of_mem_dedupKeys tt SOS h) (by simp [target_specials])
  have heos : EOS ∉ dedupKeys tt := fun h =>
    ht EOS (mem_of_mem_dedupKeys tt EOS h) (by simp [target_specials])
  show insertSpecials (dedupKeys tt) target_specials
      = EOS :: SOS :: PAD :: UNK :: dedupKeys tt
  have hp1 : PAD ∉ UNK :: dedupKeys tt := by
    intro h
    rcases List.mem_cons.mp h with h | h
    · exact absurd h (by decide)
    · exact hp h
  have hs1 : SOS ∉ PAD :: UNK :: dedupKeys tt := by
    intro h
    rcases List.mem_cons.mp h with h | h
    · exact absurd h (by decide)
    rcases List.mem_cons.mp h with h | h
    · exact absurd h (by decide)
    · exact hsos h
  have he1 : EOS ∉ SOS :: PAD :: UNK :: dedupKeys tt := by
    intro h
    rcases List.mem_cons.mp h with h | h
    · exact absurd h (by decide)
    rcases List.mem_cons.mp h with h | h
    · exact absurd h (by decide)
    rcases List.mem_cons.mp h with h | h
    · exact absurd h (by decide)
    · exact heos h
  rw [target_specials, insertSpecials]
  simp only [List.foldl_cons, List.foldl_nil]
  rw [insertSpecial_of_not_mem _ _ hu, insertSpecial_of_not_mem _ _ hp1,
    insertSpecial_of_not_mem _ _ hs1, insertSpecial_of_not_mem _ _ he1]

theorem init_special_indices (st tt : List String) (mw : Int)
    (hs : ∀ tok ∈ st, tok ∉ source_specials)
    (ht : ∀ tok ∈ tt, tok ∉ target_specials) :
    (init st tt mw).source_vocab.getitem PAD = 0
    ∧ (init st tt mw).source_vocab.getitem UNK = 1
    ∧ (init st tt mw).target_vocab.getitem EOS = 0
    ∧ (init st tt mw).target_vocab.getitem SOS = 1
    ∧ (init st tt mw).target_vocab.getitem PAD = 2
    ∧ (init st tt mw).target_vocab.getitem UNK = 3 := by
  have hsi := init_source_itos st tt mw hs
  have hti := init_target_itos st tt mw ht
  refine ⟨?_, ?_, ?_, ?_, ?_, ?_⟩ <;>
    simp [Vocab.getitem, hsi, hti, idxOf?, PAD, UNK, SOS, EOS]

theorem _vectorize_of_le (v : NMTVectorizer) (indices : List Nat) (n : Nat)
    (h : indices.length ≤ n) :
    v._vectorize indices (n : Int)
      = some (indices
          ++ List.replicate (n - indices.length) (v.source_vocab.getitem PAD)) := by
  have h1 : ¬ ((n : Int) < 0) := by omega
  have h2 : ((n : Int)).toNat = n := by omega
  simp only [_vectorize]
  rw [if_neg h1, h2, if_pos h]

theorem _vectorize_default (v : NMTVectorizer) (indices : List Nat) :
    v._vectorize indices (-1) = some indices := by
  have h1 : ((-1 : Int) < 0) := by decide
  have h2 : ((indices.length : Int)).toNat = indices.length := by omega
  simp only [_vectorize]
  rw [if_pos h1, h2, if_pos (Nat.le_refl _)]
  simp

theorem nopeak_mask_getD (n a b : Nat) (ha : a < n) (hb : b < n) :
    ((nopeak_mask n).getD a []).getD b false = decide (b ≤ a) := by
  rw [nopeak_mask, getD_range_map_of_lt _ n a [] ha,
    getD_range_map_of_lt _ n b false hb]
  by_cases h : a + 1 ≤ b
  · rw [if_pos h]
    have h1 : ¬ (b ≤ a) := by omega
    simp [h1]
  · rw [if_neg h]
    have h1 : b ≤ a := by omega
    simp [h1]

theorem create_masks_target_getD (v : NMTVectorizer) (src tx : List Nat)
    (i j : Nat) (hi : i < tx.length) (hj : j < tx.length) :
    (((v.create_masks src (some tx)).2.getD []).getD i []).getD j false
      = ((tx.getD j 0 != v.target_vocab.getitem PAD) && decide (j ≤ i)) := by
  have hrow : (nopeak_mask tx.length).getD i []
      = (List.range tx.length).map
          (fun j => (if i + 1 ≤ j then (1 : Nat) else 0) == 0) := by
    rw [nopeak_mask]
    exact getD_range_map_of_lt _ _ _ _ hi
  have hnpl : (nopeak_mask tx.length).length = tx.length := by
    simp [nopeak_mask]
  have h1b : j < (tx.map fun e => e != v.target_vocab.getitem PAD).length := by
    simpa using hj
  have h2b : j < ((nopeak_mask tx.length).getD i []).length := by
    rw [hrow]
    simpa using hj
  simp only [create_masks, Option.map_some', Option.getD_some]
  rw [getD_map_of_lt _ (nopeak_mask tx.length) i [] [] (by rw [hnpl]; exact hi)]
  rw [getD_zipWith_of_lt _ _ _ j false false false h1b h2b]
  rw [nopeak_mask_getD tx.length i j hi hj,
    getD_map_of_lt _ tx j false 0 hj]

theorem vectorize_eq (v : NMTVectorizer) (s t : String) (sv txv tyv : List Nat)
    (tm : List (List Bool))
    (hsv : v._vectorize (v._get_source_indices s) v.max_words = some sv)
    (htx : v._vectorize (v._get_target_indices t).1 (v.max_words + 1) = some txv)
    (hty : v._vectorize (v._get_target_indices t).2 (v.max_words + 1) = some tyv)
    (htm : (v.create_masks sv (some txv)).2 = some tm) :
    v.vectorize s t = some ⟨sv, (v.create_masks sv (some txv)).1, txv, tyv, tm⟩ := by
  simp only [vectorize, Option.bind_eq_bind, Option.some_bind, hsv, htx, hty, htm]

theorem vectorize_source_isSome (v : NMTVectorizer) (s t : String)
    (r : VectorizedPair) (hr : v.vectorize s t = some r) :
    ∃ sv, v._vectorize (v._get_source_indices s) v.max_words = some sv := by
  cases hsv : v._vectorize (v._get_source_indices s) v.max_words with
  | none =>
    rw [vectorize, hsv] at hr
    simp at hr
  | some sv => exact ⟨sv, rfl⟩

theorem from_serializable_to_serializable (st tt : List String) (mw : Int) :
    from_serializable (to_serializable (init st tt mw)) = init st tt mw := by
  have hsrc : insertSpecials
        (dedupKeys (insertSpecials (dedupKeys st) source_specials)) source_specials
      = insertSpecials (dedupKeys st) source_specials := by
    rw [dedupKeys_eq_self _ (insertSpecials_nodup _ _ (dedupKeys_nodup st))]
    exact insertSpecials_of_forall_mem _ _
      (fun s h => mem_insertSpecials_self _ _ s h)
  have htgt : insertSpecials
        (dedupKeys (insertSpecials (dedupKeys tt) target_specials)) target_specials
      = insertSpecials (dedupKeys tt) target_specials := by
    rw [dedupKeys_eq_self _ (insertSpecials_nodup _ _ (dedupKeys_nodup tt))]
    exact insertSpecials_of_forall_mem _ _
      (fun s h => mem_insertSpecials_self _ _ s h)
  simp only [from_serializable, to_serializable, init]
  rw [hsrc, htgt]

end NMTVectorizer

open NMTVectorizer

/-! Concrete strings used by witnesses and counterexamples. -/

def tokA : String := "a"
def tokB : String := "b"
def tokZZZ : String := "zzz"
def sentXY : String := "x y"
def sentSrc : String := "the cat sat"
def sentTgt : String := "le chat assis"
def tokThe : String := "the"
def tokCat : String := "cat"
def tokSat : String := "sat"
def tokLe : String := "le"
def tokChat : String := "chat"
def tokAssis : String := "assis"

/-- C4: for all sizes n and positions 0 ≤ i, j < n, the causal mask
nopeak_mask n has entry (i, j) true iff j ≤ i; every diagonal entry is true;
and for i ≠ j the entries (i, j) and (j, i) are never both true. -/
theorem C4_nopeak_mask_causal (n i j : Nat) (hi : i < n) (hj : j < n) :
    (((nopeak_mask n).getD i []).getD j false = true ↔ j ≤ i)
    ∧ ((nopeak_mask n).getD i []).getD i false = true
    ∧ (i ≠ j →
        ¬(((nopeak_mask n).getD i []).getD j false = true
          ∧ ((nopeak_mask n).getD j []).getD i false = true)) := by
  rw [nopeak_mask_getD n i j hi hj, nopeak_mask_getD n i i hi hi,
    nopeak_mask_getD n j i hj hi]
  refine ⟨by simp, by simp, ?_⟩
  rintro hne ⟨h1, h2⟩
  simp only [decide_eq_true_eq] at h1 h2
  omega

/-- Witness for C4 at n = 3, i = 2, j = 1. -/
theorem C4_witness :
    2 < 3 ∧ 1 < 3
    ∧ ((((nopeak_mask 3).getD 2 []).getD 1 false = true ↔ 1 ≤ 2)
      ∧ ((nopeak_mask 3).getD 2 []).getD 2 false = true
      ∧ (2 ≠ 1 →
          ¬(((nopeak_mask 3).getD 2 []).getD 1 false = true
            ∧ ((nopeak_mask 3).getD 1 []).getD 2 false = true))) :=
  ⟨by decide, by decide, C4_nopeak_mask_causal 3 2 1 (by decide) (by decide)⟩

/-- C5: create_masks with no target returns only the single-row source padding
mask; with a target vector it returns the source mask as first component, and
the target mask entry (i, j) is the AND of the target padding comparison at j
with the causal mask, hence false wherever either is false. -/
theorem C5_create_masks_spec (v : NMTVectorizer) (src tx : List Nat) (i j : Nat)
    (hi : i < tx.length) (hj : j < tx.length) :
    v.create_masks src none
      = ([src.map fun e => e != v.source_vocab.getitem PAD], none)
    ∧ (v.create_masks src (some tx)).1
      = [src.map fun e => e != v.source_vocab.getitem PAD]
    ∧ (((v.create_masks src (some tx)).2.getD []).getD i []).getD j false
      = ((tx.getD j 0 != v.target_vocab.getitem PAD) && decide (j ≤ i)) :=
  ⟨rfl, rfl, create_masks_target_getD v src tx i j hi hj⟩

/-- Witness for C5 with a concrete vectorizer, source vector [2, 0], target
vector [1, 4, 0], i = 1, j = 0. -/
theorem C5_witness :
    1 < ([1, 4, 0] : List Nat).length ∧ 0 < ([1, 4, 0] : List Nat).length
    ∧ ((init [tokA] [tokB] 3).create_masks [2, 0] none
        = ([[2, 0].map fun e =>
            e != (init [tokA] [tokB] 3).source_vocab.getitem PAD], none)
      ∧ ((init [tokA] [tokB] 3).create_masks [2, 0] (some [1, 4, 0])).1
        = [[2, 0].map fun e =>
            e != (init [tokA] [tokB] 3).source_vocab.getitem PAD]
      ∧ ((((init [tokA] [tokB] 3).create_masks [2, 0] (some [1, 4, 0])).2.getD
            []).getD 1 []).getD 0 false
        = ((([1, 4, 0] : List Nat).getD 0 0
            != (init [tokA] [tokB] 3).target_vocab.getitem PAD)
          && decide (0 ≤ 1))) :=
  ⟨by decide, by decide,
    C5_create_masks_spec (init [tokA] [tokB] 3) [2, 0] [1, 4, 0] 1 0
      (by decide) (by decide)⟩

/-- C6: the target index computation returns x = [sos] ++ indices and
y = indices ++ [eos] where indices is the target-vocabulary lookup of the
whitespace-split text; both have length one more than indices, and
y[i] = x[i+1] for every i below the length of indices. -/
theorem C6_teacher_forcing (v : NMTVectorizer) (text : String) (i : Nat)
    (hi : i < ((splitWS text).map v.target_vocab.getitem).length) :
    (v._get_target_indices text).1
      = v.target_vocab.getitem SOS :: (splitWS text).map v.target_vocab.getitem
    ∧ (v._get_target_indices text).2
      = (splitWS text).map v.target_vocab.getitem ++ [v.target_vocab.getitem EOS]
    ∧ (v._get_target_indices text).1.length
      = ((splitWS text).map v.target_vocab.getitem).length + 1
    ∧ (v._get_target_indices text).2.length
      = ((splitWS text).map v.target_vocab.getitem).length + 1
    ∧ (v._get_target_indices text).2.getD i 0
      = (v._get_target_indices text).1.getD (i + 1) 0 := by
  refine ⟨rfl, rfl, by simp [_get_target_indices], by simp [_get_target_indices], ?_⟩
  rw [show (v._get_target_indices text).2
      = (splitWS text).map v.target_vocab.getitem ++ [v.target_vocab.getitem EOS]
    from rfl]
  rw [getD_append_of_lt _ _ _ _ hi]
  rw [show (v._get_target_indices text).1
      = v.target_vocab.getitem SOS :: (splitWS text).map v.target_vocab.getitem
    from rfl]
  rw [List.getD_cons_succ]

/-- Witness for C6 with a concrete vectorizer, target text consisting of one
in-vocabulary token, and i = 0. -/
theorem C6_witness :
    0 < ((splitWS tokB).map (init [tokA] [tokB] 3).target_vocab.getitem).length
    ∧ (((init [tokA] [tokB] 3)._get_target_indices tokB).1
        = (init [tokA] [tokB] 3).target_vocab.getitem SOS
          :: (splitWS tokB).map (init [tokA] [tokB] 3).target_vocab.getitem
      ∧ ((init [tokA] [tokB] 3)._get_target_indices tokB).2
        = (splitWS tokB).map (init [tokA] [tokB] 3).target_vocab.getitem
          ++ [(init [tokA] [tokB] 3).target_vocab.getitem EOS]
      ∧ ((init [tokA] [tokB] 3)._get_target_indices tokB).1.length
        = ((splitWS tokB).map (init [tokA] [tokB] 3).target_vocab.getitem).length + 1
      ∧ ((init [tokA] [tokB] 3)._get_target_indices tokB).2.length
        = ((splitWS tokB).map (init [tokA] [tokB] 3).target_vocab.getitem).length + 1
      ∧ ((init [tokA] [tokB] 3)._get_target_indices tokB).2.getD 0 0
        = ((init [tokA] [tokB] 3)._get_target_indices tokB).1.getD (0 + 1) 0) :=
  ⟨by decide, C6_teacher_forcing (init [tokA] [tokB] 3) tokB 0 (by decide)⟩

/-- C1: the claim requires unknown tokens to map to each side's own unknown
index.  The constructor sets the target vocabulary's default index from the
SOURCE vocabulary's unknown index: on a concrete vectorizer, an unknown target
token maps to index 1 — the target start-of-sequence slot — while the target
vocabulary's unknown token sits at index 3. -/
theorem C1_target_default_index_bug :
    tokZZZ ∉ (init [tokA] [tokB] 5).target_vocab.itos
    ∧ (init [tokA] [tokB] 5).target_vocab.getitem tokZZZ = 1
    ∧ idxOf? UNK (init [tokA] [tokB] 5).target_vocab.itos = some 3
    ∧ (init [tokA] [tokB] 5).target_vocab.getitem tokZZZ
        ≠ (idxOf? UNK (init [tokA] [tokB] 5).target_vocab.itos).getD 0
    ∧ (init [tokA] [tokB] 5).target_vocab.getitem tokZZZ
        = (idxOf? SOS (init [tokA] [tokB] 5).target_vocab.itos).getD 0 := by
  decide

/-- C3 counterexample: in the end-to-end scenario the target-y vector is
[4, 5, 6, 0, 0, 0] — the three target-token indices, the end-token index, and
TWO trailing pad slots — so it is not of the claimed shape (three indices, the
end token, then a single pad entry), under either reading of the pad index
(fill value 0 or target pad index 2). -/
theorem C3_counterexample :
    ((from_pairs [(sentSrc, sentTgt)] 5).vectorize sentSrc sentTgt).map
        (fun r => r.target_y_vector) = some [4, 5, 6, 0, 0, 0]
    ∧ ((from_pairs [(sentSrc, sentTgt)] 5).vectorize sentSrc sentTgt).map
        (fun r => r.target_y_vector) ≠ some ([4, 5, 6] ++ [0] ++ [0])
    ∧ ((from_pairs [(sentSrc, sentTgt)] 5).vectorize sentSrc sentTgt).map
        (fun r => r.target_y_vector) ≠ some ([4, 5, 6] ++ [0] ++ [2]) := by
  decide

/-- C3 amended: with the vocabulary built from the single pair and
max_words = 5, the source vector is the three source-token indices followed by
2 pad indices (length 5); the target-x vector is the start-token index, the 3
target-token indices, then 2 pad slots (length 6); the target-y vector is the
3 target-token indices, the end-token index, then 2 pad slots (length 6); each
pad slot holds the fill value used by _vectorize, the source pad index. -/
theorem C3_amended_vectorize :
    ((from_pairs [(sentSrc, sentTgt)] 5).vectorize sentSrc sentTgt).map
        (fun r => (r.source_vector, r.target_x_vector, r.target_y_vector))
      = some
        ([(from_pairs [(sentSrc, sentTgt)] 5).source_vocab.getitem tokThe,
          (from_pairs [(sentSrc, sentTgt)] 5).source_vocab.getitem tokCat,
          (from_pairs [(sentSrc, sentTgt)] 5).source_vocab.getitem tokSat]
          ++ List.replicate 2
            ((from_pairs [(sentSrc, sentTgt)] 5).source_vocab.getitem PAD),
         (from_pairs [(sentSrc, sentTgt)] 5).target_vocab.getitem SOS
          :: [(from_pairs [(sentSrc, sentTgt)] 5).target_vocab.getitem tokLe,
              (from_pairs [(sentSrc, sentTgt)] 5).target_vocab.getitem tokChat,
              (from_pairs [(sentSrc, sentTgt)] 5).target_vocab.getitem tokAssis]
          ++ List.replicate 2
            ((from_pairs [(sentSrc, sentTgt)] 5).source_vocab.getitem PAD),
         [(from_pairs [(sentSrc, sentTgt)] 5).target_vocab.getitem tokLe,
          (from_pairs [(sentSrc, sentTgt)] 5).target_vocab.getitem tokChat,
          (from_pairs [(sentSrc, sentTgt)] 5).target_vocab.getitem tokAssis]
          ++ [(from_pairs [(sentSrc, sentTgt)] 5).target_vocab.getitem EOS]
          ++ List.replicate 2
            ((from_pairs [(sentSrc, sentTgt)] 5).source_vocab.getitem PAD))
    ∧ ((from_pairs [(sentSrc, sentTgt)] 5).vectorize sentSrc sentTgt).map
        (fun r => r.source_vector.length) = some 5
    ∧ ((from_pairs [(sentSrc, sentTgt)] 5).vectorize sentSrc sentTgt).map
        (fun r => r.target_x_vector.length) = some 6
    ∧ ((from_pairs [(sentSrc, sentTgt)] 5).vectorize sentSrc sentTgt).map
        (fun r => r.target_y_vector.length) = some 6 := by
  decide

/-- C7 counterexample: with length 0 and a single oversized index, the slice
assignment broadcasts the size-1 source tensor over the empty destination
slice, so _vectorize returns the empty vector instead of raising. -/
theorem C7_counterexample :
    (init [tokA] [tokB] 1)._vectorize [5] 0 = some []
    ∧ (init [tokA] [tokB] 1)._vectorize [5] 0 ≠ none := by
  decide

/-- C7 amended: for every index sequence and non-negative length with
len(indices) > length, _vectorize fails — except in the single broadcasting
case len(indices) = 1 with length 0, where it silently returns the empty
vector; and with max_words = 1 a two-token source sentence makes vectorize
fail. -/
theorem C7_amended_oversized (v : NMTVectorizer) (indices : List Nat)
    (vlen : Int) (st tt : List String) (s t : String)
    (h0 : 0 ≤ vlen) (hgt : vlen < (indices.length : Int))
    (hne : ¬(indices.length = 1 ∧ vlen = 0))
    (hs2 : (splitWS s).length = 2) :
    v._vectorize indices vlen = none
    ∧ (init st tt 1).vectorize s t = none := by
  constructor
  · have hnn : ¬ (vlen < 0) := by omega
    have hlt : (if vlen < 0 then ((indices.length : Nat) : Int) else vlen).toNat
        < indices.length := by
      rw [if_neg hnn]
      omega
    have hne1 : indices.length ≠ 1 := by
      intro h1
      apply hne
      refine ⟨h1, ?_⟩
      rw [if_neg hnn] at hlt
      omega
    simp only [_vectorize]
    rw [if_neg (Nat.not_le.mpr hlt), if_neg hne1]
  · have hsrc : ((init st tt 1)._get_source_indices s).length = 2 := by
      simp [_get_source_indices, hs2]
    have hnone : (init st tt 1)._vectorize ((init st tt 1)._get_source_indices s)
        (init st tt 1).max_words = none := by
      have hmw : (init st tt 1).max_words = (1 : Int) := rfl
      rw [hmw]
      simp only [_vectorize]
      rw [if_neg (by decide : ¬ ((1 : Int) < 0))]
      rw [show ((1 : Int)).toNat = 1 from rfl]
      rw [if_neg (by omega), if_neg (by omega)]
    rw [vectorize, hnone]
    rfl

/-- Witness for C7 at a three-index sequence with length 2, and a two-token
source sentence with max_words = 1. -/
theorem C7_witness :
    (0 : Int) ≤ 2 ∧ (2 : Int) < (([7, 8, 9] : List Nat).length : Int)
    ∧ ¬(([7, 8, 9] : List Nat).length = 1 ∧ (2 : Int) = 0)
    ∧ (splitWS sentXY).length = 2
    ∧ ((init [tokA] [tokB] 9)._vectorize [7, 8, 9] 2 = none
      ∧ (init [tokA] [tokB] 1).vectorize sentXY tokB = none) :=
  ⟨by decide, by decide, by decide, by decide,
    C7_amended_oversized (init [tokA] [tokB] 9) [7, 8, 9] 2 [tokA] [tokB]
      sentXY tokB (by decide) (by decide) (by decide) (by decide)⟩

theorem dropWhile_beq_replicate_append (p m : Nat) (l : List Nat) :
    List.dropWhile (· == p) (List.replicate m p ++ l)
      = List.dropWhile (· == p) l := by
  induction m with
  | zero => rfl
  | succ m ih =>
    rw [List.replicate_succ, List.cons_append, List.dropWhile_cons]
    simp only [beq_self_eq_true, if_true]
    exact ih

theorem stripTrailingPadding_append_replicate (indices : List Nat) (p m : Nat)
    (hlast : indices.getLast? ≠ some p) :
    stripTrailingPadding (indices ++ List.replicate m p) p = indices := by
  rw [stripTrailingPadding, List.reverse_append, List.reverse_replicate,
    dropWhile_beq_replicate_append]
  have h2 : List.dropWhile (· == p) indices.reverse = indices.reverse := by
    cases hrev : indices.reverse with
    | nil => rfl
    | cons a as =>
      have hha : indices.getLast? = some a := by
        rw [← List.head?_reverse, hrev]
        rfl
      have ha : ¬ ((a == p) = true) := by
        simp only [beq_iff_eq]
        intro he
        exact hlast (by rw [hha, he])
      rw [List.dropWhile_cons, if_neg ha]
  rw [h2, List.reverse_reverse]

/-- C8 counterexample: an index sequence that already ends in the pad value is
not recovered: [0] padded to length 2 gives [0, 0], and stripping all trailing
pad entries returns the empty list, not [0]. -/
theorem C8_counterexample :
    (init [tokA] [tokB] 5)._vectorize [0] 2 = some [0, 0]
    ∧ stripTrailingPadding [0, 0]
        ((init [tokA] [tokB] 5).source_vocab.getitem PAD) = []
    ∧ ([] : List Nat) ≠ [0] := by
  decide

/-- C8 amended: for every index sequence strictly shorter than the length whose
last entry is not the pad value, padding via _vectorize and then stripping all
trailing pad entries recovers the sequence exactly; and with the omitted
(negative default) length, _vectorize returns the indices unchanged. -/
theorem C8_amended_roundtrip (v : NMTVectorizer) (indices idx2 : List Nat)
    (n : Nat) (hlt : indices.length < n)
    (hlast : indices.getLast? ≠ some (v.source_vocab.getitem PAD)) :
    (v._vectorize indices (n : Int)).map
        (fun vec => stripTrailingPadding vec (v.source_vocab.getitem PAD))
      = some indices
    ∧ v._vectorize idx2 (-1) = some idx2 := by
  refine ⟨?_, _vectorize_default v idx2⟩
  rw [_vectorize_of_le v indices n (Nat.le_of_lt hlt)]
  simp only [Option.map_some']
  rw [stripTrailingPadding_append_replicate indices _ _ hlast]

/-- Witness for C8 at indices [3] padded to length 3 and a default-length
call on [9, 9]. -/
theorem C8_witness :
    ([3] : List Nat).length < 3
    ∧ ([3] : List Nat).getLast?
        ≠ some ((init [tokA] [tokB] 5).source_vocab.getitem PAD)
    ∧ (((init [tokA] [tokB] 5)._vectorize [3] ((3 : Nat) : Int)).map
        (fun vec => stripTrailingPadding vec
          ((init [tokA] [tokB] 5).source_vocab.getitem PAD))
      = some [3]
      ∧ (init [tokA] [tokB] 5)._vectorize [9, 9] (-1) = some [9, 9]) :=
  ⟨by decide, by decide,
    C8_amended_roundtrip (init [tokA] [tokB] 5) [3] [9, 9] 3
      (by decide) (by decide)⟩

/-- C9: reconstructing a vectorizer via from_serializable of to_serializable
yields one that, on any pair the original can vectorize, produces exactly the
same output vectors and masks. -/
theorem C9_serialization_roundtrip (st tt : List String) (mw : Int)
    (s t : String) (_h : ((init st tt mw).vectorize s t).isSome = true) :
    (from_serializable (to_serializable (init st tt mw))).vectorize s t
      = (init st tt mw).vectorize s t := by
  rw [from_serializable_to_serializable]

/-- Witness for C9 on a concrete vectorizer and pair. -/
theorem C9_witness :
    ((init [tokA] [tokB] 3).vectorize tokA tokB).isSome = true
    ∧ (from_serializable (to_serializable (init [tokA] [tokB] 3))).vectorize
        tokA tokB
      = (init [tokA] [tokB] 3).vectorize tokA tokB :=
  ⟨by decide, C9_serialization_roundtrip [tokA] [tokB] 3 tokA tokB (by decide)⟩

/-- C10: constructed from token lists containing no special tokens, the source
vocabulary is pad at 0, unk at 1, then corpus tokens in first-appearance
order; the target vocabulary is eos 0, sos 1, pad 2, unk 3 then corpus tokens;
and repeated construction from the same input is identical. -/
theorem C10_special_token_layout (st tt : List String) (mw : Int)
    (hs : ∀ tok ∈ st, tok ∉ source_specials)
    (ht : ∀ tok ∈ tt, tok ∉ target_specials) :
    (init st tt mw).source_vocab.itos = PAD :: UNK :: dedupKeys st
    ∧ (init st tt mw).target_vocab.itos = EOS :: SOS :: PAD :: UNK :: dedupKeys tt
    ∧ (init st tt mw).source_vocab.getitem PAD = 0
    ∧ (init st tt mw).source_vocab.getitem UNK = 1
    ∧ (init st tt mw).target_vocab.getitem EOS = 0
    ∧ (init st tt mw).target_vocab.getitem SOS = 1
    ∧ (init st tt mw).target_vocab.getitem PAD = 2
    ∧ (init st tt mw).target_vocab.getitem UNK = 3
    ∧ init st tt mw = init st tt mw := by
  obtain ⟨h1, h2, h3, h4, h5, h6⟩ := init_special_indices st tt mw hs ht
  exact ⟨init_source_itos st tt mw hs, init_target_itos st tt mw ht,
    h1, h2, h3, h4, h5, h6, rfl⟩

/-- Witness for C10 on concrete one-token corpora. -/
theorem C10_witness :
    (∀ tok ∈ [tokA], tok ∉ source_specials)
    ∧ (∀ tok ∈ [tokB], tok ∉ target_specials)
    ∧ ((init [tokA] [tokB] 5).source_vocab.itos = PAD :: UNK :: dedupKeys [tokA]
      ∧ (init [tokA] [tokB] 5).target_vocab.itos
        = EOS :: SOS :: PAD :: UNK :: dedupKeys [tokB]
      ∧ (init [tokA] [tokB] 5).source_vocab.getitem PAD = 0
      ∧ (init [tokA] [tokB] 5).source_vocab.getitem UNK = 1
      ∧ (init [tokA] [tokB] 5).target_vocab.getitem EOS = 0
      ∧ (init [tokA] [tokB] 5).target_vocab.getitem SOS = 1
      ∧ (init [tokA] [tokB] 5).target_vocab.getitem PAD = 2
      ∧ (init [tokA] [tokB] 5).target_vocab.getitem UNK = 3
      ∧ init [tokA] [tokB] 5 = init [tokA] [tokB] 5) :=
  ⟨by decide, by decide,
    C10_special_token_layout [tokA] [tokB] 5 (by decide) (by decide)⟩

/-- C2: for a vectorizer built from disjoint non-special token lists and a
target sentence with fewer than max_words tokens, the padding slots of the
target-x and target-y vectors hold the source vocabulary's pad index (the fill
value of _vectorize), which differs from the target vocabulary's pad index;
consequently the combined target mask at those padded positions equals the
causal mask — padded target positions are not hidden. -/
theorem C2_target_padding_unmasked (st tt : List String) (mw : Nat)
    (s t : String) (r : VectorizedPair) (i k : Nat)
    (hs : ∀ tok ∈ st, tok ∉ source_specials)
    (ht : ∀ tok ∈ tt, tok ∉ target_specials)
    (_hdisj : ∀ tok ∈ st, tok ∉ tt)
    (hlen : (splitWS t).length < mw)
    (hr : (init st tt (mw : Int)).vectorize s t = some r)
    (hk1 : (splitWS t).length + 1 ≤ k) (hk2 : k < mw + 1) (hi : i < mw + 1) :
    r.target_x_vector.length = mw + 1
    ∧ r.target_y_vector.length = mw + 1
    ∧ r.target_x_vector.getD k 0 = (init st tt (mw : Int)).source_vocab.getitem PAD
    ∧ r.target_y_vector.getD k 0 = (init st tt (mw : Int)).source_vocab.getitem PAD
    ∧ (init st tt (mw : Int)).source_vocab.getitem PAD
        ≠ (init st tt (mw : Int)).target_vocab.getitem PAD
    ∧ (r.target_mask.getD i []).getD k false = decide (k ≤ i) := by
  obtain ⟨hps, -, -, -, hpt, -⟩ := init_special_indices st tt (mw : Int) hs ht
  set v := init st tt (mw : Int) with hv
  obtain ⟨sv, hsv⟩ := vectorize_source_isSome v s t r hr
  have hmw1 : v.max_words + 1 = ((mw + 1 : Nat) : Int) := by
    rw [hv]
    show (mw : Int) + 1 = ((mw + 1 : Nat) : Int)
    omega
  have htxlen : (v._get_target_indices t).1.length = (splitWS t).length + 1 := by
    simp [_get_target_indices]
  have htylen : (v._get_target_indices t).2.length = (splitWS t).length + 1 := by
    simp [_get_target_indices]
  set txv := (v._get_target_indices t).1
      ++ List.replicate ((mw + 1) - ((splitWS t).length + 1)) 0 with htxv_def
  set tyv := (v._get_target_indices t).2
      ++ List.replicate ((mw + 1) - ((splitWS t).length + 1)) 0 with htyv_def
  have htxv : v._vectorize (v._get_target_indices t).1 (v.max_words + 1)
      = some txv := by
    rw [htxv_def, hmw1]
    have h1 : (v._get_target_indices t).1.length ≤ mw + 1 := by
      rw [htxlen]; omega
    rw [_vectorize_of_le v _ (mw + 1) h1, htxlen, hps]
  have htyv : v._vectorize (v._get_target_indices t).2 (v.max_words + 1)
      = some tyv := by
    rw [htyv_def, hmw1]
    have h1 : (v._get_target_indices t).2.length ≤ mw + 1 := by
      rw [htylen]; omega
    rw [_vectorize_of_le v _ (mw + 1) h1, htylen, hps]
  obtain ⟨tm, htm⟩ : ∃ tm, (v.create_masks sv (some txv)).2 = some tm := ⟨_, rfl⟩
  have hveq := vectorize_eq v s t sv txv tyv tm hsv htxv htyv htm
  rw [hveq] at hr
  have hre := Option.some.inj hr
  subst hre
  have hxlen : txv.length = mw + 1 := by
    rw [htxv_def, List.length_append, htxlen, List.length_replicate]
    omega
  have hylen : tyv.length = mw + 1 := by
    rw [htyv_def, List.length_append, htylen, List.length_replicate]
    omega
  have hxk : txv.getD k 0 = 0 := by
    rw [htxv_def, getD_append_of_le _ _ _ _ (by rw [htxlen]; omega), htxlen,
      getD_replicate_of_lt _ _ _ _ (by omega)]
  have hyk : tyv.getD k 0 = 0 := by
    rw [htyv_def, getD_append_of_le _ _ _ _ (by rw [htylen]; omega), htylen,
      getD_replicate_of_lt _ _ _ _ (by omega)]
  have hcm := create_masks_target_getD v sv txv i k
    (by rw [hxlen]; exact hi) (by rw [hxlen]; exact hk2)
  rw [htm] at hcm
  simp only [Option.getD_some] at hcm
  rw [hxk, hpt] at hcm
  have hb : ((0 : Nat) != 2) = true := by decide
  rw [hb, Bool.true_and] at hcm
  refine ⟨hxlen, hylen, ?_, ?_, ?_, ?_⟩
  · show txv.getD k 0 = v.source_vocab.getitem PAD
    rw [hps, hxk]
  · show tyv.getD k 0 = v.source_vocab.getitem PAD
    rw [hps, hyk]
  · rw [hps, hpt]
    decide
  · exact hcm

/-- Witness for C2 on a concrete vectorizer with max_words = 2, a one-token
target sentence, padded position k = 2 and row i = 2. -/
theorem C2_witness :
    (∀ tok ∈ [tokA], tok ∉ source_specials)
    ∧ (∀ tok ∈ [tokB], tok ∉ target_specials)
    ∧ (∀ tok ∈ [tokA], tok ∉ [tokB])
    ∧ (splitWS tokB).length < 2
    ∧ (init [tokA] [tokB] ((2 : Nat) : Int)).vectorize tokA tokB
      = some ⟨[2, 0], [[true, false]], [1, 4, 0], [4, 0, 0],
          [[true, false, false], [true, true, false], [true, true, true]]⟩
    ∧ (splitWS tokB).length + 1 ≤ 2 ∧ 2 < 2 + 1
    ∧ ((⟨[2, 0], [[true, false]], [1, 4, 0], [4, 0, 0],
          [[true, false, false], [true, true, false], [true, true, true]]⟩
          : VectorizedPair).target_x_vector.length = 2 + 1
      ∧ (⟨[2, 0], [[true, false]], [1, 4, 0], [4, 0, 0],
          [[true, false, false], [true, true, false], [true, true, true]]⟩
          : VectorizedPair).target_y_vector.length = 2 + 1
      ∧ (⟨[2, 0], [[true, false]], [1, 4, 0], [4, 0, 0],
          [[true, false, false], [true, true, false], [true, true, true]]⟩
          : VectorizedPair).target_x_vector.getD 2 0
        = (init [tokA] [tokB] ((2 : Nat) : Int)).source_vocab.getitem PAD
      ∧ (⟨[2, 0], [[true, false]], [1, 4, 0], [4, 0, 0],
          [[true, false, false], [true, true, false], [true, true, true]]⟩
          : VectorizedPair).target_y_vector.getD 2 0
        = (init [tokA] [tokB] ((2 : Nat) : Int)).source_vocab.getitem PAD
      ∧ (init [tokA] [tokB] ((2 : Nat) : Int)).source_vocab.getitem PAD
        ≠ (init [tokA] [tokB] ((2 : Nat) : Int)).target_vocab.getitem PAD
      ∧ ((⟨[2, 0], [[true, false]], [1, 4, 0], [4, 0, 0],
          [[true, false, false], [true, true, false], [true, true, true]]⟩
          : VectorizedPair).target_mask.getD 2 []).getD 2 false
        = decide (2 ≤ 2)) :=
  ⟨by decide, by decide, by decide, by decide, by decide, by decide, by decide,
    C2_target_padding_unmasked [tokA] [tokB] 2 tokA tokB
      ⟨[2, 0], [[true, false]], [1, 4, 0], [4, 0, 0],
        [[true, false, false], [true, true, false], [true, true, true]]⟩ 2 2
      (by decide) (by decide) (by decide) (by decide) (by decide)
      (by decide) (by decide) (by decide)⟩
